import Mathlib

/-!
Verification of the `@panth977/logs` package: the `createStringifyLogger`
formatter and the `createFileLogger` rotating file sink, with its TTL-based
maintenance cycle (`onInterval`).

The repository carries two variants of the sink: a Node variant
(`fs.createWriteStream` / `readFileSync` / `writeFileSync`, whose scan loop
re-executes a fresh regex on the already-truncated chunk) and a Deno variant
(`Deno.openSync` / `readTextFile` / `writeTextFile`, whose scan loop walks one
global regex over the full content).  Both are embedded below.

File contents are embedded as `List Char`.  The marker-pattern scan
(`---------- TIMESTAMP: (\d+) ----------`, global flag) is embedded as the
list of leftmost, non-overlapping matches in file order, which is exactly what
repeated `regex.exec` produces.  Loops that consume the string are written
with an explicit fuel argument bounded by the string length, so that every
definition evaluates inside the kernel; fuel-irrelevance lemmas below recover
the natural recursion equations.
-/

namespace Logs

/-- Characters of the fixed text the marker pattern requires before the digits:
the literal part of the regex `---------- TIMESTAMP: (\d+) ----------`. -/
def patHead : List Char := "---------- TIMESTAMP: ".data

/-- Characters of the fixed text the marker pattern requires after the digits. -/
def patTail : List Char := " ----------".data

/-- Base-10 value of a digit string, as `parseInt(match[1], 10)` computes it on
an all-digit match. -/
def digitsVal (ds : List Char) : Nat :=
  ds.foldl (fun a c => a * 10 + (c.toNat - 48)) 0

/-- Decimal digit characters of a natural number (fuelled helper; the fuel is
only there to make the recursion structural). -/
def natDigitsF : Nat → Nat → List Char
  | 0, _ => []
  | fuel + 1, n =>
    if n < 10 then [Char.ofNat (48 + n)]
    else natDigitsF fuel (n / 10) ++ [Char.ofNat (48 + n % 10)]

/-- Decimal digit characters of a natural number, as JS renders an integer
inside a template literal. -/
def natDigits (n : Nat) : List Char := natDigitsF (n + 1) n

/-- The text of an Age Marker as matched by the pattern (no surrounding
spaces). -/
def markerCore (n : Nat) : List Char := patHead ++ natDigits n ++ patTail

/-- The exact Age Marker line a maintenance cycle appends:
a space, the marker text, a space. -/
def markerLine (n : Nat) : List Char := [' '] ++ markerCore n ++ [' ']

/-- Does the marker pattern match at the very start of `s`?  Returns the parsed
timestamp and the length of the matched text.  Since the fixed tail begins with
a non-digit, the greedy `\d+` of the regex matches exactly the maximal digit
run, which is what `takeWhile` takes. -/
def tryMatch (s : List Char) : Option (Nat × Nat) :=
  if patHead.isPrefixOf s then
    let rest := s.drop patHead.length
    let ds := rest.takeWhile (fun c => c.isDigit)
    if ds.isEmpty then none
    else if patTail.isPrefixOf (rest.drop ds.length) then
      some (digitsVal ds, patHead.length + ds.length + patTail.length)
    else none
  else none

/-- Leftmost match of the marker pattern in `s`: index, parsed timestamp and
match length, as a fresh `regex.exec` finds it. -/
def findMatch : List Char → Option (Nat × Nat × Nat)
  | [] => none
  | c :: t =>
    match tryMatch (c :: t) with
    | some (ts, L) => some (0, ts, L)
    | none => (findMatch t).map (fun r => (r.1 + 1, r.2))

/-- All matches of the marker pattern in `s`, in file order, leftmost first and
non-overlapping, each as (absolute index, parsed timestamp, match length) —
the sequence of matches that iterating `regex.exec` with the global flag
enumerates (fuelled helper). -/
def markersF : Nat → List Char → List (Nat × Nat × Nat)
  | 0, _ => []
  | fuel + 1, s =>
    match findMatch s with
    | none => []
    | some (i, ts, L) =>
      (i, ts, L) :: (markersF fuel (s.drop (i + L))).map (fun m => (i + L + m.1, m.2))

/-- All Age Marker matches of the scan, in file order. -/
def markers (s : List Char) : List (Nat × Nat × Nat) := markersF s.length s

/-- Is a scanned marker strictly newer than the expiry timestamp `e`?  This is
the `timestamp > expiryTimestamp` test of `onInterval`. -/
def freshAt (e : Int) (m : Nat × Nat × Nat) : Bool := decide (e < (m.2.1 : Int))

/-- The Deno variant's scan-and-cut (src/mod.ts lines 250-262): one global
regex walks `content`; at the first match whose timestamp is strictly greater
than the expiry the chunk becomes `content.substring(match.index)`; if no
match is strictly newer the chunk stays the whole content. -/
def rotateDeno (e : Int) (content : List Char) : List Char :=
  match (markers content).find? (freshAt e) with
  | none => content
  | some m => content.drop m.1

/-- The Node variant's scan-and-cut loop (src/mod.ts lines 100-111): a fresh
regex is executed against the current chunk; an expired match cuts the chunk
just past the matched text and the loop rescans; a strictly-newer match cuts
the chunk at the match start and stops (fuelled helper). -/
def rotateNodeF : Nat → Int → List Char → List Char
  | 0, _, chunk => chunk
  | fuel + 1, e, chunk =>
    match findMatch chunk with
    | none => chunk
    | some (i, ts, L) =>
      if e < (ts : Int) then chunk.drop i
      else rotateNodeF fuel e (chunk.drop (i + L))

/-- The Node variant's scan-and-cut. -/
def rotateNode (e : Int) (chunk : List Char) : List Char :=
  rotateNodeF chunk.length e chunk

/-- Position just past the last scanned marker (0 when there is none): where
the Node loop's consumption stops when every marker is expired (fuelled
helper). -/
def scanEndF : Nat → List Char → Nat
  | 0, _ => 0
  | fuel + 1, s =>
    match findMatch s with
    | none => 0
    | some (i, _, L) => i + L + scanEndF fuel (s.drop (i + L))

/-- Position just past the last scanned marker (0 when there is none). -/
def scanEnd (s : List Char) : Nat := scanEndF s.length s

/-- One Node maintenance cycle on the content path, under the reading where the
marker line appended at the cycle's start (timestamp `now1`) is visible to the
subsequent read: append the marker line and the separator, then scan and cut
with `expiryTimestamp = now2 - ttl*1000` (`now1` is the first `Date.now()`
call, `now2` the second). -/
def cycleNode (ttl now1 now2 : Nat) (sep prior : List Char) : List Char :=
  rotateNode ((now2 : Int) - (ttl : Int) * 1000) (prior ++ markerLine now1 ++ sep)

/-- One Deno maintenance cycle on the content path: the awaited append
completes before `Deno.readTextFile`, so the content read is
`prior ++ markerLine now1 ++ sep`. -/
def cycleDeno (ttl now1 now2 : Nat) (sep prior : List Char) : List Char :=
  rotateDeno ((now2 : Int) - (ttl : Int) * 1000) (prior ++ markerLine now1 ++ sep)

/-! ### Digit-string lemmas -/

theorem natDigitsF_congr : ∀ f1 f2 n, n < f1 → n < f2 → natDigitsF f1 n = natDigitsF f2 n := by
  intro f1
  induction f1 with
  | zero => intro f2 n h1; omega
  | succ f1 ih =>
    intro f2 n h1 h2
    cases f2 with
    | zero => omega
    | succ f2 =>
      by_cases hn : n < 10
      · simp [natDigitsF, hn]
      · have hlt : n / 10 < n := Nat.div_lt_self (by omega) (by omega)
        simp only [natDigitsF, if_neg hn]
        rw [ih f2 (n / 10) (by omega) (by omega)]

theorem natDigits_eq (n : Nat) :
    natDigits n = if n < 10 then [Char.ofNat (48 + n)]
      else natDigits (n / 10) ++ [Char.ofNat (48 + n % 10)] := by
  by_cases hn : n < 10
  · rw [if_pos hn]
    simp [natDigits, natDigitsF, hn]
  · rw [if_neg hn]
    conv_lhs => rw [natDigits]
    rw [show natDigitsF (n + 1) n = natDigitsF n (n / 10) ++ [Char.ofNat (48 + n % 10)] by
      simp only [natDigitsF, if_neg hn]]
    rw [natDigitsF_congr n (n / 10 + 1) (n / 10) (by omega) (by omega)]
    rfl

theorem digitChar_isDigit (d : Nat) (h : d < 10) : (Char.ofNat (48 + d)).isDigit = true := by
  interval_cases d <;> decide

theorem digitChar_toNat (d : Nat) (h : d < 10) : (Char.ofNat (48 + d)).toNat = 48 + d := by
  interval_cases d <;> decide

theorem digitsVal_append_one (xs : List Char) (c : Char) :
    digitsVal (xs ++ [c]) = digitsVal xs * 10 + (c.toNat - 48) := by
  simp only [digitsVal]
  rw [List.foldl_append]
  rfl

/-- Writing a natural number in decimal and parsing it back with `parseInt`
recovers the number. -/
theorem digitsVal_natDigits (n : Nat) : digitsVal (natDigits n) = n := by
  induction n using Nat.strong_induction_on with
  | _ n ih =>
    rw [natDigits_eq]
    by_cases hn : n < 10
    · rw [if_pos hn]
      show digitsVal ([] ++ [Char.ofNat (48 + n)]) = n
      rw [digitsVal_append_one, digitChar_toNat n hn]
      simp [digitsVal]
    · rw [if_neg hn]
      rw [digitsVal_append_one, digitChar_toNat (n % 10) (by omega)]
      rw [ih (n / 10) (Nat.div_lt_self (by omega) (by omega))]
      have := Nat.div_add_mod n 10
      omega

theorem natDigits_ne_nil (n : Nat) : natDigits n ≠ [] := by
  rw [natDigits_eq]
  by_cases hn : n < 10
  · simp [hn]
  · simp [hn]

theorem natDigits_all_digit (n : Nat) : ∀ c ∈ natDigits n, c.isDigit = true := by
  induction n using Nat.strong_induction_on with
  | _ n ih =>
    rw [natDigits_eq]
    by_cases hn : n < 10
    · rw [if_pos hn]
      intro c hc
      simp only [List.mem_singleton] at hc
      subst hc
      exact digitChar_isDigit n hn
    · rw [if_neg hn]
      intro c hc
      rw [List.mem_append] at hc
      rcases hc with hc | hc
      · exact ih (n / 10) (Nat.div_lt_self (by omega) (by omega)) c hc
      · simp only [List.mem_singleton] at hc
        subst hc
        exact digitChar_isDigit (n % 10) (by omega)

/-! ### Pattern-match lemmas -/

theorem mem_takeWhile {p : Char → Bool} : ∀ {l : List Char} {c : Char},
    c ∈ l.takeWhile p → p c = true := by
  intro l
  induction l with
  | nil => intro c hc; simp [List.takeWhile] at hc
  | cons a t ih =>
    intro c hc
    rw [List.takeWhile_cons] at hc
    by_cases ha : p a = true
    · rw [if_pos ha] at hc
      rcases List.mem_cons.mp hc with hc | hc
      · subst hc; exact ha
      · exact ih hc
    · rw [if_neg ha] at hc
      simp at hc

theorem takeWhile_exact (p : Char → Bool) : ∀ (ds u : List Char),
    (∀ c ∈ ds, p c = true) → (∀ c, u.head? = some c → p c = false) →
    (ds ++ u).takeWhile p = ds := by
  intro ds
  induction ds with
  | nil =>
    intro u _ hu
    cases u with
    | nil => rfl
    | cons c t =>
      simp only [List.nil_append, List.takeWhile_cons]
      rw [hu c rfl]
      rfl
  | cons a ds ih =>
    intro u hds hu
    simp only [List.cons_append, List.takeWhile_cons]
    rw [hds a (by simp)]
    simp only [if_true]
    rw [ih u (fun c hc => hds c (by simp [hc])) hu]

theorem tryMatch_nil : tryMatch [] = none := by decide

/-- A successful `tryMatch` decomposes the string as head, digit run, tail,
remainder. -/
theorem tryMatch_some_decomp {s : List Char} {t L : Nat} (h : tryMatch s = some (t, L)) :
    ∃ ds r, s = patHead ++ ds ++ patTail ++ r ∧ ds ≠ [] ∧ (∀ c ∈ ds, c.isDigit = true) ∧
      t = digitsVal ds ∧ L = patHead.length + ds.length + patTail.length := by
  simp only [tryMatch] at h
  by_cases hp : patHead.isPrefixOf s
  · rw [if_pos hp] at h
    have hpre : patHead <+: s := List.isPrefixOf_iff_prefix.mp hp
    obtain ⟨u, hu⟩ := hpre
    have hrest : s.drop patHead.length = u := by
      rw [← hu, List.drop_left]
    rw [hrest] at h
    set ds := u.takeWhile (fun c => c.isDigit) with hds
    by_cases hne : ds.isEmpty
    · rw [if_pos hne] at h; exact absurd h (by simp)
    · rw [if_neg hne] at h
      by_cases htl : patTail.isPrefixOf (u.drop ds.length)
      · rw [if_pos htl] at h
        have hu2 : u = ds ++ u.dropWhile (fun c => c.isDigit) := by
          rw [hds]; rw [List.takeWhile_append_dropWhile]
        have hdrop : u.drop ds.length = u.dropWhile (fun c => c.isDigit) := by
          conv_lhs => rw [hu2]
          rw [List.drop_left]
        have htl2 : patTail <+: u.dropWhile (fun c => c.isDigit) := by
          rw [← hdrop]; exact List.isPrefixOf_iff_prefix.mp htl
        obtain ⟨r, hr⟩ := htl2
        refine ⟨ds, r, ?_, ?_, ?_, ?_, ?_⟩
        · rw [← hu, hu2, ← hr]
          simp [List.append_assoc]
        · intro hnil
          rw [hnil] at hne
          simp at hne
        · intro c hc
          exact mem_takeWhile (hds ▸ hc)
        · have := h
          simp only [Option.some.injEq, Prod.mk.injEq] at this
          exact this.1.symm
        · have := h
          simp only [Option.some.injEq, Prod.mk.injEq] at this
          exact this.2.symm
      · rw [if_neg htl] at h; exact absurd h (by simp)
  · rw [if_neg hp] at h
    exact absurd h (by simp)

/-- Conversely, a head–digits–tail decomposition makes `tryMatch` succeed. -/
theorem tryMatch_of_decomp (ds r : List Char) (hne : ds ≠ [])
    (hdig : ∀ c ∈ ds, c.isDigit = true) :
    tryMatch (patHead ++ ds ++ patTail ++ r) =
      some (digitsVal ds, patHead.length + ds.length + patTail.length) := by
  have hshape : patHead ++ ds ++ patTail ++ r = patHead ++ (ds ++ (patTail ++ r)) := by
    simp [List.append_assoc]
  simp only [tryMatch]
  have hp : patHead.isPrefixOf (patHead ++ ds ++ patTail ++ r) = true := by
    rw [hshape]
    exact List.isPrefixOf_iff_prefix.mpr ⟨ds ++ (patTail ++ r), rfl⟩
  rw [if_pos hp]
  have hrest : (patHead ++ ds ++ patTail ++ r).drop patHead.length = ds ++ (patTail ++ r) := by
    rw [hshape, List.drop_left]
  rw [hrest]
  have htw : (ds ++ (patTail ++ r)).takeWhile (fun c => c.isDigit) = ds := by
    apply takeWhile_exact
    · exact hdig
    · intro c hc
      have : (patTail ++ r).head? = some ' ' := rfl
      rw [this] at hc
      simp only [Option.some.injEq] at hc
      subst hc
      decide
  rw [htw]
  have hemp : ds.isEmpty = false := by
    cases ds with
    | nil => exact absurd rfl hne
    | cons a t => rfl
  rw [hemp]
  simp only [Bool.false_eq_true, if_false]
  have hdrop : (ds ++ (patTail ++ r)).drop ds.length = patTail ++ r := List.drop_left ds _
  rw [hdrop]
  have htl : patTail.isPrefixOf (patTail ++ r) = true :=
    List.isPrefixOf_iff_prefix.mpr ⟨r, rfl⟩
  rw [if_pos htl]

/-- A match is preserved by extending the string on the right. -/
theorem tryMatch_append {s : List Char} {t L : Nat} (h : tryMatch s = some (t, L))
    (u : List Char) : tryMatch (s ++ u) = some (t, L) := by
  obtain ⟨ds, r, hs, hne, hdig, ht, hL⟩ := tryMatch_some_decomp h
  subst hs
  have : patHead ++ ds ++ patTail ++ r ++ u = patHead ++ ds ++ patTail ++ (r ++ u) := by
    simp [List.append_assoc]
  rw [this, tryMatch_of_decomp ds (r ++ u) hne hdig, ht, hL]

/-- Bounds extracted from a successful `tryMatch`. -/
theorem tryMatch_bounds {s : List Char} {t L : Nat} (h : tryMatch s = some (t, L)) :
    0 < L ∧ L ≤ s.length := by
  obtain ⟨ds, r, hs, hne, _, _, hL⟩ := tryMatch_some_decomp h
  have hlen : s.length = patHead.length + ds.length + patTail.length + r.length := by
    rw [hs]; simp [List.length_append]; omega
  have hd : 0 < ds.length := List.length_pos.mpr hne
  have hh : 0 < patHead.length := by decide
  omega

theorem findMatch_some_facts : ∀ {s : List Char} {i ts L : Nat},
    findMatch s = some (i, ts, L) →
    tryMatch (s.drop i) = some (ts, L) ∧ 0 < L ∧ i + L ≤ s.length := by
  intro s
  induction s with
  | nil => intro i ts L h; exact absurd h (by simp [findMatch])
  | cons c t ih =>
    intro i ts L h
    simp only [findMatch] at h
    cases htm : tryMatch (c :: t) with
    | some r =>
      obtain ⟨ts', L'⟩ := r
      rw [htm] at h
      simp only [Option.some.injEq, Prod.mk.injEq] at h
      obtain ⟨hi, hts, hL⟩ := h
      subst hi; subst hts; subst hL
      refine ⟨htm, ?_, ?_⟩
      · exact (tryMatch_bounds htm).1
      · have := (tryMatch_bounds htm).2
        omega
    | none =>
      rw [htm] at h
      rw [Option.map_eq_some'] at h
      obtain ⟨⟨i', ts', L'⟩, hfm, heq⟩ := h
      simp only [Prod.mk.injEq] at heq
      obtain ⟨hi, hts, hL⟩ := heq
      subst hi; subst hts; subst hL
      obtain ⟨h1, h2, h3⟩ := ih hfm
      refine ⟨?_, h2, ?_⟩
      · rw [List.drop_succ_cons]; exact h1
      · simp only [List.length_cons]; omega

theorem findMatch_zero {s : List Char} {ts L : Nat} (h : tryMatch s = some (ts, L)) :
    findMatch s = some (0, ts, L) := by
  cases s with
  | nil => rw [tryMatch_nil] at h; exact absurd h (by simp)
  | cons c t => simp [findMatch, h]

/-! ### Recursion equations for the fuelled scan loops -/

theorem markersF_congr : ∀ f1 f2 s, s.length ≤ f1 → s.length ≤ f2 →
    markersF f1 s = markersF f2 s := by
  intro f1
  induction f1 with
  | zero =>
    intro f2 s h1 h2
    have hs : s = [] := List.eq_nil_of_length_eq_zero (by omega)
    subst hs
    cases f2 with
    | zero => rfl
    | succ f2 => simp [markersF, findMatch]
  | succ f1 ih =>
    intro f2 s h1 h2
    cases f2 with
    | zero =>
      have hs : s = [] := List.eq_nil_of_length_eq_zero (by omega)
      subst hs
      simp [markersF, findMatch]
    | succ f2 =>
      simp only [markersF]
      cases hfm : findMatch s with
      | none => rfl
      | some r =>
        obtain ⟨i, ts, L⟩ := r
        obtain ⟨-, hL, hb⟩ := findMatch_some_facts hfm
        dsimp only
        have hl1 : (s.drop (i + L)).length ≤ f1 := by rw [List.length_drop]; omega
        have hl2 : (s.drop (i + L)).length ≤ f2 := by rw [List.length_drop]; omega
        rw [ih f2 (s.drop (i + L)) hl1 hl2]

theorem markers_eq (s : List Char) :
    markers s = match findMatch s with
      | none => []
      | some (i, ts, L) =>
        (i, ts, L) :: (markers (s.drop (i + L))).map (fun m => (i + L + m.1, m.2)) := by
  cases s with
  | nil => rfl
  | cons c t =>
    show markersF (c :: t).length (c :: t) = _
    rw [show (c :: t).length = t.length + 1 from rfl]
    simp only [markersF]
    cases hfm : findMatch (c :: t) with
    | none => rfl
    | some r =>
      obtain ⟨i, ts, L⟩ := r
      obtain ⟨-, hL, hb⟩ := findMatch_some_facts hfm
      dsimp only
      have hc : markersF t.length ((c :: t).drop (i + L)) = markers ((c :: t).drop (i + L)) := by
        apply markersF_congr
        · rw [List.length_drop]
          simp only [List.length_cons] at hb ⊢
          omega
        · exact le_rfl
      rw [hc]

theorem markers_none {s : List Char} (h : findMatch s = none) : markers s = [] := by
  rw [markers_eq, h]

theorem markers_cons {s : List Char} {i ts L : Nat} (h : findMatch s = some (i, ts, L)) :
    markers s = (i, ts, L) :: (markers (s.drop (i + L))).map (fun m => (i + L + m.1, m.2)) := by
  rw [markers_eq, h]

theorem rotateNodeF_congr : ∀ f1 f2 (e : Int) s, s.length ≤ f1 → s.length ≤ f2 →
    rotateNodeF f1 e s = rotateNodeF f2 e s := by
  intro f1
  induction f1 with
  | zero =>
    intro f2 e s h1 h2
    have hs : s = [] := List.eq_nil_of_length_eq_zero (by omega)
    subst hs
    cases f2 with
    | zero => rfl
    | succ f2 => simp [rotateNodeF, findMatch]
  | succ f1 ih =>
    intro f2 e s h1 h2
    cases f2 with
    | zero =>
      have hs : s = [] := List.eq_nil_of_length_eq_zero (by omega)
      subst hs
      simp [rotateNodeF, findMatch]
    | succ f2 =>
      simp only [rotateNodeF]
      cases hfm : findMatch s with
      | none => rfl
      | some r =>
        obtain ⟨i, ts, L⟩ := r
        obtain ⟨-, hL, hb⟩ := findMatch_some_facts hfm
        dsimp only
        have hl1 : (s.drop (i + L)).length ≤ f1 := by rw [List.length_drop]; omega
        have hl2 : (s.drop (i + L)).length ≤ f2 := by rw [List.length_drop]; omega
        rw [ih f2 e (s.drop (i + L)) hl1 hl2]

theorem rotateNode_eq (e : Int) (s : List Char) :
    rotateNode e s = match findMatch s with
      | none => s
      | some (i, ts, L) =>
        if e < (ts : Int) then s.drop i else rotateNode e (s.drop (i + L)) := by
  cases s with
  | nil => rfl
  | cons c t =>
    show rotateNodeF (c :: t).length e (c :: t) = _
    rw [show (c :: t).length = t.length + 1 from rfl]
    simp only [rotateNodeF]
    cases hfm : findMatch (c :: t) with
    | none => rfl
    | some r =>
      obtain ⟨i, ts, L⟩ := r
      obtain ⟨-, hL, hb⟩ := findMatch_some_facts hfm
      dsimp only
      have hc : rotateNodeF t.length e ((c :: t).drop (i + L))
          = rotateNode e ((c :: t).drop (i + L)) := by
        apply rotateNodeF_congr
        · rw [List.length_drop]
          simp only [List.length_cons] at hb ⊢
          omega
        · exact le_rfl
      rw [hc]

theorem rotateNode_none {s : List Char} (h : findMatch s = none) (e : Int) :
    rotateNode e s = s := by
  rw [rotateNode_eq, h]

theorem rotateNode_fresh {s : List Char} {i ts L : Nat} (h : findMatch s = some (i, ts, L))
    (e : Int) (hf : e < (ts : Int)) : rotateNode e s = s.drop i := by
  rw [rotateNode_eq, h]
  exact if_pos hf

theorem rotateNode_stale {s : List Char} {i ts L : Nat} (h : findMatch s = some (i, ts, L))
    (e : Int) (hf : ¬ e < (ts : Int)) : rotateNode e s = rotateNode e (s.drop (i + L)) := by
  rw [rotateNode_eq, h]
  exact if_neg hf

theorem scanEndF_congr : ∀ f1 f2 s, s.length ≤ f1 → s.length ≤ f2 →
    scanEndF f1 s = scanEndF f2 s := by
  intro f1
  induction f1 with
  | zero =>
    intro f2 s h1 h2
    have hs : s = [] := List.eq_nil_of_length_eq_zero (by omega)
    subst hs
    cases f2 with
    | zero => rfl
    | succ f2 => simp [scanEndF, findMatch]
  | succ f1 ih =>
    intro f2 s h1 h2
    cases f2 with
    | zero =>
      have hs : s = [] := List.eq_nil_of_length_eq_zero (by omega)
      subst hs
      simp [scanEndF, findMatch]
    | succ f2 =>
      simp only [scanEndF]
      cases hfm : findMatch s with
      | none => rfl
      | some r =>
        obtain ⟨i, ts, L⟩ := r
        obtain ⟨-, hL, hb⟩ := findMatch_some_facts hfm
        dsimp only
        have hl1 : (s.drop (i + L)).length ≤ f1 := by rw [List.length_drop]; omega
        have hl2 : (s.drop (i + L)).length ≤ f2 := by rw [List.length_drop]; omega
        rw [ih f2 (s.drop (i + L)) hl1 hl2]

theorem scanEnd_eq (s : List Char) :
    scanEnd s = match findMatch s with
      | none => 0
      | some (i, _, L) => i + L + scanEnd (s.drop (i + L)) := by
  cases s with
  | nil => rfl
  | cons c t =>
    show scanEndF (c :: t).length (c :: t) = _
    rw [show (c :: t).length = t.length + 1 from rfl]
    simp only [scanEndF]
    cases hfm : findMatch (c :: t) with
    | none => rfl
    | some r =>
      obtain ⟨i, ts, L⟩ := r
      obtain ⟨-, hL, hb⟩ := findMatch_some_facts hfm
      dsimp only
      have hc : scanEndF t.length ((c :: t).drop (i + L)) = scanEnd ((c :: t).drop (i + L)) := by
        apply scanEndF_congr
        · rw [List.length_drop]
          simp only [List.length_cons] at hb ⊢
          omega
        · exact le_rfl
      rw [hc]

theorem scanEnd_none {s : List Char} (h : findMatch s = none) : scanEnd s = 0 := by
  rw [scanEnd_eq, h]

theorem scanEnd_cons {s : List Char} {i ts L : Nat} (h : findMatch s = some (i, ts, L)) :
    scanEnd s = i + L + scanEnd (s.drop (i + L)) := by
  rw [scanEnd_eq, h]

/-- Induction along the scan loop: a property holds of every string if it holds
when no match remains, and is preserved from the string past a match to the
whole string. -/
theorem scan_induction (P : List Char → Prop)
    (h0 : ∀ s, findMatch s = none → P s)
    (h1 : ∀ s i ts L, findMatch s = some (i, ts, L) → P (s.drop (i + L)) → P s) :
    ∀ s, P s := by
  have key : ∀ n s, s.length ≤ n → P s := by
    intro n
    induction n with
    | zero =>
      intro s hs
      have hnil : s = [] := List.eq_nil_of_length_eq_zero (by omega)
      subst hnil
      exact h0 [] rfl
    | succ n ih =>
      intro s hs
      cases hfm : findMatch s with
      | none => exact h0 s hfm
      | some r =>
        obtain ⟨i, ts, L⟩ := r
        obtain ⟨-, hL, hb⟩ := findMatch_some_facts hfm
        refine h1 s i ts L hfm (ih _ ?_)
        rw [List.length_drop]
        omega
  exact fun s => key s.length s le_rfl

/-! ### Structure of the scanned marker list -/

theorem drop_add (s : List Char) (a b : Nat) : s.drop (a + b) = (s.drop a).drop b := by
  rw [List.drop_drop]

/-- The first strictly-newer test distributes over one scan step. -/
theorem find?_markers_cons {s : List Char} {i ts L : Nat} (e : Int)
    (h : findMatch s = some (i, ts, L)) :
    (markers s).find? (freshAt e) =
      if e < (ts : Int) then some (i, ts, L)
      else ((markers (s.drop (i + L))).find? (freshAt e)).map (fun m => (i + L + m.1, m.2)) := by
  rw [markers_cons h]
  by_cases hf : e < (ts : Int)
  · rw [if_pos hf]
    apply List.find?_cons_of_pos
    simpa [freshAt] using hf
  · rw [if_neg hf]
    rw [List.find?_cons_of_neg]
    · rw [List.find?_map]
      rfl
    · simpa [freshAt] using hf

/-- Scanned matches have strictly increasing indices. -/
theorem markers_pairwise : ∀ s : List Char, (markers s).Pairwise (fun a b => a.1 < b.1) := by
  refine scan_induction _ ?_ ?_
  · intro s h
    rw [markers_none h]
    exact List.Pairwise.nil
  · intro s i ts L hfm ih
    rw [markers_cons hfm]
    refine List.Pairwise.cons ?_ ?_
    · intro b hb
      rw [List.mem_map] at hb
      obtain ⟨m, hm, hbm⟩ := hb
      subst hbm
      have hL : 0 < L := (findMatch_some_facts hfm).2.1
      dsimp only
      omega
    · exact List.Pairwise.map _ (fun a b hab => by dsimp only; omega) ih

/-- Every scanned entry records a genuine pattern match at its index. -/
theorem markers_mem_tryMatch : ∀ s : List Char, ∀ m ∈ markers s,
    tryMatch (s.drop m.1) = some m.2 := by
  refine scan_induction _ ?_ ?_
  · intro s h m hm
    rw [markers_none h] at hm
    simp at hm
  · intro s i ts L hfm ih m hm
    rw [markers_cons hfm] at hm
    rcases List.mem_cons.mp hm with hm | hm
    · subst hm
      exact (findMatch_some_facts hfm).1
    · rw [List.mem_map] at hm
      obtain ⟨m', hm', rfl⟩ := hm
      have hres := ih m' hm'
      dsimp only
      rw [drop_add]
      exact hres

theorem map_eq_append_cons {α β : Type} {f : α → β} :
    ∀ {l : List α} {L1 : List β} {x : β} {L2 : List β},
    l.map f = L1 ++ x :: L2 →
    ∃ M1 y M2, l = M1 ++ y :: M2 ∧ M1.map f = L1 ∧ f y = x ∧ M2.map f = L2 := by
  intro l L1
  induction L1 generalizing l with
  | nil =>
    intro x L2 h
    cases l with
    | nil => simp at h
    | cons a t =>
      simp only [List.map_cons, List.nil_append] at h
      injection h with h1 h2
      exact ⟨[], a, t, rfl, rfl, h1, h2⟩
  | cons b L1 ih =>
    intro x L2 h
    cases l with
    | nil => simp at h
    | cons a t =>
      simp only [List.map_cons, List.cons_append] at h
      injection h with h1 h2
      obtain ⟨M1, y, M2, ht, hm1, hy, hm2⟩ := ih h2
      exact ⟨a :: M1, y, M2, by rw [ht]; rfl, by rw [List.map_cons, hm1, h1], hy, hm2⟩

theorem find?_split {α : Type} (p : α → Bool) :
    ∀ (l : List α) (x : α), l.find? p = some x →
    ∃ L1 L2, l = L1 ++ x :: L2 ∧ ∀ y ∈ L1, p y = false := by
  intro l
  induction l with
  | nil => intro x h; simp at h
  | cons a t ih =>
    intro x h
    by_cases ha : p a = true
    · rw [List.find?_cons_of_pos t ha] at h
      simp only [Option.some.injEq] at h
      subst h
      exact ⟨[], t, rfl, by simp⟩
    · rw [List.find?_cons_of_neg t ha] at h
      obtain ⟨L1, L2, hl, hL1⟩ := ih x h
      refine ⟨a :: L1, L2, by rw [hl]; rfl, ?_⟩
      intro y hy
      rcases List.mem_cons.mp hy with hy | hy
      · subst hy
        simpa using ha
      · exact hL1 y hy

/-- Cutting the content at the start of a scanned match leaves exactly that
match and its successors, with indices shifted back. -/
theorem markers_drop_of_split : ∀ s : List Char, ∀ (j ts L : Nat)
    (L1 L2 : List (Nat × Nat × Nat)),
    markers s = L1 ++ (j, ts, L) :: L2 →
    markers (s.drop j) = ((j, ts, L) :: L2).map (fun m => (m.1 - j, m.2)) := by
  refine scan_induction (fun s => ∀ j ts L L1 L2, markers s = L1 ++ (j, ts, L) :: L2 →
    markers (s.drop j) = ((j, ts, L) :: L2).map (fun m => (m.1 - j, m.2))) ?_ ?_
  · intro s h j ts L L1 L2 hsplit
    rw [markers_none h] at hsplit
    exact absurd hsplit (by simp)
  · intro s i t l hfm ih j ts L L1 L2 hsplit
    rw [markers_cons hfm] at hsplit
    cases L1 with
    | nil =>
      simp only [List.nil_append] at hsplit
      injection hsplit with hhead htail
      injection hhead with h1 h23
      injection h23 with h2 h3
      subst h1
      subst h2
      subst h3
      have htm : tryMatch (s.drop i) = some (t, l) := (findMatch_some_facts hfm).1
      have hfm0 : findMatch (s.drop i) = some (0, t, l) := findMatch_zero htm
      rw [markers_cons hfm0]
      rw [← htail]
      simp only [Nat.zero_add, ← drop_add, List.map_cons, List.map_map, Nat.sub_self,
        Function.comp]
      congr 1
      apply List.map_congr_left
      intro m hm
      simp only [Function.comp_apply]
      rw [Prod.ext_iff]
      refine ⟨?_, rfl⟩
      dsimp only
      omega
    | cons a L1 =>
      simp only [List.cons_append] at hsplit
      injection hsplit with hhead htail
      obtain ⟨M1, y, M2, hrest, hM1, hy, hM2⟩ := map_eq_append_cons htail
      obtain ⟨y1, y2⟩ := y
      simp only at hy
      injection hy with hj hy2
      subst hy2
      have ihres := ih y1 ts L M1 M2 hrest
      subst hj
      rw [drop_add s (i + l) y1, ihres]
      rw [← hM2]
      simp only [List.map_cons, List.map_map, Nat.sub_self]
      congr 1
      apply List.map_congr_left
      intro m hm
      simp only [Function.comp_apply]
      rw [Prod.ext_iff]
      refine ⟨?_, rfl⟩
      dsimp only
      omega

theorem markers_drop_scanEnd : ∀ s : List Char, markers (s.drop (scanEnd s)) = [] := by
  refine scan_induction _ ?_ ?_
  · intro s h
    rw [scanEnd_none h, List.drop_zero, markers_none h]
  · intro s i ts L hfm ih
    rw [scanEnd_cons hfm, drop_add]
    exact ih

/-- Characterisation of the Node scan-and-cut loop: it cuts at the first
scanned match that is strictly newer than the expiry; when there is none it
cuts just past the last scanned match. -/
theorem rotateNode_spec (e : Int) (s : List Char) :
    rotateNode e s = match (markers s).find? (freshAt e) with
      | some m => s.drop m.1
      | none => s.drop (scanEnd s) := by
  refine scan_induction (fun s => rotateNode e s =
    match (markers s).find? (freshAt e) with
      | some m => s.drop m.1
      | none => s.drop (scanEnd s)) ?_ ?_ s
  · intro s h
    rw [rotateNode_none h, markers_none h, scanEnd_none h]
    simp
  · intro s i ts L hfm ih
    by_cases hf : e < (ts : Int)
    · rw [rotateNode_fresh hfm e hf, find?_markers_cons e hfm, if_pos hf]
    · rw [rotateNode_stale hfm e hf, ih, find?_markers_cons e hfm, if_neg hf]
      cases hfd : (markers (s.drop (i + L))).find? (freshAt e) with
      | some m =>
        dsimp only [Option.map_some']
        rw [drop_add s (i + L) m.1]
      | none =>
        dsimp only [Option.map_none']
        rw [scanEnd_cons hfm, drop_add s (i + L) (scanEnd (s.drop (i + L)))]

theorem rotateNode_of_find?_some {s : List Char} {m : Nat × Nat × Nat} (e : Int)
    (h : (markers s).find? (freshAt e) = some m) : rotateNode e s = s.drop m.1 := by
  rw [rotateNode_spec e s, h]

theorem rotateNode_of_find?_none {s : List Char} (e : Int)
    (h : (markers s).find? (freshAt e) = none) : rotateNode e s = s.drop (scanEnd s) := by
  rw [rotateNode_spec e s, h]

theorem rotateDeno_of_find?_some {s : List Char} {m : Nat × Nat × Nat} (e : Int)
    (h : (markers s).find? (freshAt e) = some m) : rotateDeno e s = s.drop m.1 := by
  rw [rotateDeno, h]

theorem rotateDeno_of_find?_none {s : List Char} (e : Int)
    (h : (markers s).find? (freshAt e) = none) : rotateDeno e s = s := by
  rw [rotateDeno, h]

/-- When a strictly-newer scanned match exists: the scan list splits at the
first such match, every earlier match is expired, both variants cut exactly at
its start, and the scanned matches of the rewritten content are the retained
matches with indices shifted back. -/
theorem fresh_split {s : List Char} {m : Nat × Nat × Nat} (e : Int)
    (h : (markers s).find? (freshAt e) = some m) :
    ∃ L1 L2, markers s = L1 ++ m :: L2 ∧ (∀ y ∈ L1, freshAt e y = false) ∧
      freshAt e m = true ∧
      rotateNode e s = s.drop m.1 ∧ rotateDeno e s = s.drop m.1 ∧
      markers (s.drop m.1) = (m :: L2).map (fun x => (x.1 - m.1, x.2)) := by
  obtain ⟨L1, L2, hsplit, hL1⟩ := find?_split (freshAt e) (markers s) m h
  refine ⟨L1, L2, hsplit, hL1, List.find?_some h, rotateNode_of_find?_some e h,
    rotateDeno_of_find?_some e h, ?_⟩
  obtain ⟨m1, m2, m3⟩ := m
  exact markers_drop_of_split s m1 m2 m3 L1 L2 hsplit

/-- Entries after a split point of the scan list have strictly larger
indices. -/
theorem split_le_indices {s : List Char} {m : Nat × Nat × Nat}
    {L1 L2 : List (Nat × Nat × Nat)} (hsplit : markers s = L1 ++ m :: L2) :
    ∀ x ∈ L2, m.1 < x.1 := by
  have hp := markers_pairwise s
  rw [hsplit] at hp
  have h2 := (List.pairwise_append.mp hp).2.1
  exact (List.pairwise_cons.mp h2).1

/-- If the head of a string is a strictly-newer pattern match, the scan cuts
nothing: both variants rewrite the content unchanged (used for the second of
two back-to-back cycles, whose read content starts with the fresh match the
first cycle retained). -/
theorem rotate_stable_of_head_fresh (e : Int) (c R u : List Char) (m : Nat × Nat × Nat)
    (h : (markers c).find? (freshAt e) = some m) (hR : R = c.drop m.1) :
    rotateNode e (R ++ u) = R ++ u ∧ rotateDeno e (R ++ u) = R ++ u := by
  obtain ⟨m1, mts, mL⟩ := m
  have hmem := List.mem_of_find?_eq_some h
  have htm : tryMatch (c.drop m1) = some (mts, mL) := markers_mem_tryMatch c _ hmem
  have hfr : e < (mts : Int) := by
    have hq := List.find?_some h
    rw [freshAt, decide_eq_true_eq] at hq
    exact hq
  have htm2 : tryMatch (R ++ u) = some (mts, mL) := by
    rw [hR]
    exact tryMatch_append htm u
  have hfm2 : findMatch (R ++ u) = some (0, mts, mL) := findMatch_zero htm2
  have hfind2 : (markers (R ++ u)).find? (freshAt e) = some (0, mts, mL) := by
    rw [find?_markers_cons e hfm2, if_pos hfr]
  constructor
  · rw [rotateNode_of_find?_some e hfind2]
    exact List.drop_zero _
  · rw [rotateDeno_of_find?_some e hfind2]
    exact List.drop_zero _

/-! ### The formatter (`createStringifyLogger`) -/

/-- Timestamp modes of the formatter's `addTs` option. -/
inductive TsMode
  | epoch
  | iso

/-- Options of `createStringifyLogger` (the source's `addPrefix` option is
called `addPfx` here). -/
structure StringifyOpts where
  forEachLine : Bool
  addPfx : Option String
  addTs : Option TsMode

/-- JS truthiness of an optional string: `undefined` and `""` are falsy. -/
def jsStrTruthy (o : Option String) : Bool :=
  match o with
  | none => false
  | some s => !(s == (""))

/-- The formatter body (src/mod.ts lines 47-61).  `fmt` is the external
`util.format` applied to two arguments, `isoOf` the external
`new Date().toISOString()` as a function of the clock, `base` the already
rendered `util.format(...args)`, `pfx` the call-time prefix argument.
Mirrors the source line by line: wrap the base string, optionally split the
first entry per line, optionally map the static prefix over every line, then
the call-time prefix, then one timestamp computed once from the clock, and
join with newlines. -/
def stringifyLog (fmt : String → String → String) (isoOf : Nat → String)
    (o : StringifyOpts) (now : Nat) (pfx : Option String) (base : String) : String :=
  let logs := [base]
  let logs := if o.forEachLine then (logs.headD ("")).splitOn ("\n") else logs
  let logs := if jsStrTruthy o.addPfx then logs.map (fun x => fmt (o.addPfx.getD ("")) x) else logs
  let logs := if jsStrTruthy pfx then logs.map (fun x => fmt (pfx.getD ("")) x) else logs
  let logs :=
    match o.addTs with
    | some TsMode.epoch => logs.map (fun x => fmt (toString (now / 1000)) x)
    | some TsMode.iso => logs.map (fun x => fmt (isoOf now) x)
    | none => logs
  String.intercalate ("\n") logs

/-! ### Sink lifecycle and construction models -/

/-- JS truthiness of an optional number: `undefined` and `0` are falsy. -/
def jsNumTruthy (o : Option Nat) : Bool :=
  match o with
  | none => false
  | some n => !(n == 0)

/-- Resources held by the Node variant of the sink. -/
structure NodeSinkState where
  timerScheduled : Bool
  streamOpen : Bool

/-- Node sink construction: opens the append stream; `setInterval` schedules
the periodic timer exactly when `ttl` is truthy (src/mod.ts lines 135-138). -/
def createNodeSink (ttl : Option Nat) : NodeSinkState :=
  { timerScheduled := jsNumTruthy ttl, streamOpen := true }

/-- The Node sink's `dispose` (src/mod.ts lines 117-127): it closes the write
stream and nothing else — in particular the interval timer is never
cleared. -/
def disposeNodeSink (s : NodeSinkState) : NodeSinkState :=
  { s with streamOpen := false }

/-- Resources held by the Deno variant of the sink. -/
structure DenoSinkState where
  timerScheduled : Bool
  intervalId : Option Nat
  writerOpen : Bool
  fileOpen : Bool

/-- Deno sink construction: `setInterval` returns a positive id remembered in
`intervalId` exactly when `ttl` is truthy (src/mod.ts lines 275-281). -/
def createDenoSink (ttl : Option Nat) : DenoSinkState :=
  { timerScheduled := jsNumTruthy ttl
  , intervalId := if jsNumTruthy ttl then some 1 else none
  , writerOpen := true
  , fileOpen := true }

/-- The Deno sink's `dispose` (src/mod.ts lines 283-289):
`if (intervalId) clearInterval(intervalId)`, then close the writer and the
file. -/
def disposeDenoSink (s : DenoSinkState) : DenoSinkState :=
  { s with
    timerScheduled := if jsNumTruthy s.intervalId then false else s.timerScheduled
  , writerOpen := false
  , fileOpen := false }

/-- File metadata the Node construction reads (`fs.statSync`: `birthtime` is
always present, in milliseconds). -/
structure NodeStats where
  birthtimeMs : Int

/-- Does the Node construction's max-age check delete the file
(src/mod.ts lines 128-134)?  `fs.createWriteStream` opens its file
asynchronously, so the synchronous `existsSync` in the check still reflects
whether the file existed before this construction. -/
def nodeMaxAgeDeletes (expireDur : Option Nat) (existedBefore : Bool)
    (st : NodeStats) (now : Int) : Bool :=
  jsNumTruthy expireDur && existedBefore &&
    decide ((((now - st.birthtimeMs : Int) : ℚ) / 1000) > ((expireDur.getD 0 : Nat) : ℚ))

/-- File metadata the Deno construction reads (`Deno.statSync`: both
timestamps may be unavailable). -/
structure DenoStats where
  birthtimeMs : Option Int
  mtimeMs : Option Int

/-- Does the Deno construction's max-age check delete the file
(src/mod.ts lines 265-273)?  `ensureFileSync` has already created the file, so
the `existsSync` of the check always passes; a file that did not exist before
this construction was created this very instant, so its creation time is
`now`. -/
def denoMaxAgeDeletes (expireDur : Option Nat) (existedBefore : Bool)
    (st : DenoStats) (now : Int) : Bool :=
  let birth : Int := if existedBefore then st.birthtimeMs.getD (st.mtimeMs.getD now) else now
  jsNumTruthy expireDur &&
    decide ((((now - birth : Int) : ℚ) / 1000) > ((expireDur.getD 0 : Nat) : ℚ))

/-- The deletion condition exactly as claim C8 words it: the max-age option is
set, the file already existed prior to this construction, and the age computed
from the creation timestamp (falling back to the modification time when the
creation time is unavailable) exceeds the configured maximum. -/
def claimMaxAgeDeletes (expireDur : Option Nat) (existedBefore : Bool)
    (birthMs mtimeMs : Option Int) (now : Int) : Prop :=
  expireDur.isSome = true ∧ existedBefore = true ∧
    (((now - birthMs.getD (mtimeMs.getD now) : Int) : ℚ) / 1000) > ((expireDur.getD 0 : Nat) : ℚ)

/-- Construction-time events, for the ordering part of claim C8. -/
inductive SinkEv
  | openHandle
  | ageCheck
  | deleteFile
  | timerSchedule
  | maintenanceRun
deriving DecidableEq

/-- Ordered events of the Node construction body: open the stream, run the
max-age check once (deleting when it fires), then, when `ttl` is truthy,
schedule the interval timer and run one eager maintenance cycle. -/
def nodeConstructTrace (expireDur ttl : Option Nat) (existedBefore : Bool)
    (st : NodeStats) (now : Int) : List SinkEv :=
  [SinkEv.openHandle, SinkEv.ageCheck]
    ++ (if nodeMaxAgeDeletes expireDur existedBefore st now then [SinkEv.deleteFile] else [])
    ++ (if jsNumTruthy ttl then [SinkEv.timerSchedule, SinkEv.maintenanceRun] else [])

/-- Ordered events of the Deno construction body (the `ensureFileSync` and
`Deno.openSync` pair is the `openHandle` event). -/
def denoConstructTrace (expireDur ttl : Option Nat) (existedBefore : Bool)
    (st : DenoStats) (now : Int) : List SinkEv :=
  [SinkEv.openHandle, SinkEv.ageCheck]
    ++ (if denoMaxAgeDeletes expireDur existedBefore st now then [SinkEv.deleteFile] else [])
    ++ (if jsNumTruthy ttl then [SinkEv.timerSchedule, SinkEv.maintenanceRun] else [])

/-- Executable check that a list of numbers is non-decreasing. -/
def nonDecreasing : List Nat → Bool
  | [] => true
  | [_] => true
  | a :: b :: t => decide (a ≤ b) && nonDecreasing (b :: t)

theorem nonDecreasing_chain' : ∀ l : List Nat, nonDecreasing l = true → l.Chain' (· ≤ ·) := by
  intro l
  induction l with
  | nil => intro _; exact List.chain'_nil
  | cons a t ih =>
    cases t with
    | nil => intro _; simp
    | cons b t2 =>
      intro h
      rw [nonDecreasing, Bool.and_eq_true, decide_eq_true_eq] at h
      exact List.chain'_cons.mpr ⟨h.1, ih h.2⟩

theorem isPrefixOf_cons_cons {a b : Char} {as bs : List Char} :
    (a :: as).isPrefixOf (b :: bs) = (a == b && as.isPrefixOf bs) := rfl

/-- The pattern cannot match at a space. -/
theorem tryMatch_space (x : List Char) : tryMatch (' ' :: x) = none := by
  have hp : patHead.isPrefixOf (' ' :: x) = false := by
    rw [show patHead = '-' :: "--------- TIMESTAMP: ".data from by decide]
    rw [isPrefixOf_cons_cons]
    rw [show (('-' : Char) == ' ') = false from by decide]
    rfl
  simp [tryMatch, hp]

theorem findMatch_cons_none {c : Char} {t : List Char} (h : tryMatch (c :: t) = none) :
    findMatch (c :: t) = (findMatch t).map (fun r => (r.1 + 1, r.2)) := by
  simp [findMatch, h]

/-! ### The claims -/

/-- Claim C1 (confirmed): for every file content and expiry
`expiryTimestamp = now - ttl*1000`, when the scan of the content finds a first
Age Marker occurrence (in file order, as the global-regex scan enumerates
occurrences) whose parsed timestamp is strictly greater than the expiry, both
variants of the maintenance rewrite retain exactly the substring from that
marker's start position to end of file. -/
theorem C1_cut_point (now ttl : Nat) (content : List Char) (m : Nat × Nat × Nat)
    (h : (markers content).find? (freshAt ((now : Int) - (ttl : Int) * 1000)) = some m) :
    rotateNode ((now : Int) - (ttl : Int) * 1000) content = content.drop m.1 ∧
    rotateDeno ((now : Int) - (ttl : Int) * 1000) content = content.drop m.1 :=
  ⟨rotateNode_of_find?_some _ h, rotateDeno_of_find?_some _ h⟩

/-- Witness for C1 at a concrete input: content `log1\n` followed by the marker
line for timestamp 5000, scanned at `now = 5000` with `ttl = 1`. -/
theorem C1_cut_point_witness :
    ((markers ("log1\n".data ++ markerLine 5000 ++ "\n".data)).find?
        (freshAt (((5000 : Nat) : Int) - ((1 : Nat) : Int) * 1000)) = some (6, 5000, 37)) ∧
    (rotateNode (((5000 : Nat) : Int) - ((1 : Nat) : Int) * 1000)
        ("log1\n".data ++ markerLine 5000 ++ "\n".data)
        = ("log1\n".data ++ markerLine 5000 ++ "\n".data).drop 6 ∧
      rotateDeno (((5000 : Nat) : Int) - ((1 : Nat) : Int) * 1000)
        ("log1\n".data ++ markerLine 5000 ++ "\n".data)
        = ("log1\n".data ++ markerLine 5000 ++ "\n".data).drop 6) :=
  ⟨by decide,
    C1_cut_point 5000 1 ("log1\n".data ++ markerLine 5000 ++ "\n".data) (6, 5000, 37) (by decide)⟩

/-- Claim C2 counterexample: the claim says that when no marker is strictly
newer than the expiry the file is rewritten to be empty.  On content `abc`
(no markers at all) and on content with a single expired marker, neither
variant rewrites to the empty string: the Node loop keeps the residue past the
scanned markers, the Deno loop keeps the whole content. -/
theorem C2_no_fresh_counterexample :
    ((markers ("abc".data)).find?
        (freshAt (((10000 : Nat) : Int) - ((1 : Nat) : Int) * 1000)) = none ∧
      rotateNode (((10000 : Nat) : Int) - ((1 : Nat) : Int) * 1000) ("abc".data) ≠ [] ∧
      rotateDeno (((10000 : Nat) : Int) - ((1 : Nat) : Int) * 1000) ("abc".data) ≠ []) ∧
    ((markers ("x ".data ++ markerCore 10 ++ " y".data)).find?
        (freshAt (((10000 : Nat) : Int) - ((1 : Nat) : Int) * 1000)) = none ∧
      rotateNode (((10000 : Nat) : Int) - ((1 : Nat) : Int) * 1000)
          ("x ".data ++ markerCore 10 ++ " y".data) ≠ [] ∧
      rotateDeno (((10000 : Nat) : Int) - ((1 : Nat) : Int) * 1000)
          ("x ".data ++ markerCore 10 ++ " y".data) ≠ []) := by
  decide

/-- Claim C2 as amended: when no scanned marker is strictly newer than the
expiry, the Deno rewrite keeps the whole content unchanged, and the Node
rewrite keeps exactly the suffix past the position where the scan consumed its
last marker (the whole content when there is no marker) — a residue containing
no scannable marker; the rewritten file is empty only when that residue is. -/
theorem C2_no_fresh_amended (now ttl : Nat) (content : List Char)
    (h : (markers content).find? (freshAt ((now : Int) - (ttl : Int) * 1000)) = none) :
    rotateDeno ((now : Int) - (ttl : Int) * 1000) content = content ∧
    rotateNode ((now : Int) - (ttl : Int) * 1000) content = content.drop (scanEnd content) ∧
    markers (rotateNode ((now : Int) - (ttl : Int) * 1000) content) = [] := by
  refine ⟨rotateDeno_of_find?_none _ h, rotateNode_of_find?_none _ h, ?_⟩
  rw [rotateNode_of_find?_none _ h]
  exact markers_drop_scanEnd content

/-- Witness for the amended C2 at a concrete input with one expired marker. -/
theorem C2_no_fresh_amended_witness :
    ((markers ("x ".data ++ markerCore 10 ++ " y".data)).find?
        (freshAt (((10000 : Nat) : Int) - ((1 : Nat) : Int) * 1000)) = none) ∧
    (rotateDeno (((10000 : Nat) : Int) - ((1 : Nat) : Int) * 1000)
        ("x ".data ++ markerCore 10 ++ " y".data) = "x ".data ++ markerCore 10 ++ " y".data ∧
      rotateNode (((10000 : Nat) : Int) - ((1 : Nat) : Int) * 1000)
          ("x ".data ++ markerCore 10 ++ " y".data)
        = ("x ".data ++ markerCore 10 ++ " y".data).drop
            (scanEnd ("x ".data ++ markerCore 10 ++ " y".data)) ∧
      markers (rotateNode (((10000 : Nat) : Int) - ((1 : Nat) : Int) * 1000)
          ("x ".data ++ markerCore 10 ++ " y".data)) = []) :=
  ⟨by decide, C2_no_fresh_amended 10000 1 ("x ".data ++ markerCore 10 ++ " y".data) (by decide)⟩

/-- Claim C3 counterexample: a cycle with `ttl = 1 > 0` at time 100000 appends
its marker line, and that line appears in the content read — yet the Node
rewrite loses it.  The prior content ends with the marker fragment
`---------- TIMESTAMP: 99`; the scan's first match straddles the fragment and
the appended marker's leading dashes, is expired, and the loop cuts past it,
destroying the cycle's own marker: the rewritten file contains no occurrence
of the marker text and no scannable marker at all. -/
theorem C3_own_marker_counterexample :
    ((markerLine 100000).IsInfix
        ("---------- TIMESTAMP: 99".data ++ markerLine 100000 ++ "\n".data)) ∧
    ¬ (markerCore 100000).IsInfix
        (cycleNode 1 100000 100000 ("\n".data) ("---------- TIMESTAMP: 99".data)) ∧
    markers (cycleNode 1 100000 100000 ("\n".data) ("---------- TIMESTAMP: 99".data)) = [] := by
  decide

/-- Claim C3 as amended: when the cycle's appended marker is found by the
marker scan of the content read (it is whenever the preceding content does not
end in a marker fragment that swallows it), and the second clock reading lags
the first by less than `ttl*1000` milliseconds, both rewrites cut at or before
that marker's position, and the marker is still a scanned marker of the
rewritten file — so the file keeps at least one Age Marker. -/
theorem C3_own_marker_amended (ttl now1 now2 : Nat) (content : List Char) (i L : Nat)
    (httl : 0 < ttl) (hlag : now2 < now1 + ttl * 1000)
    (hmem : (i, now1, L) ∈ markers content) :
    ∃ j ≤ i, rotateNode ((now2 : Int) - (ttl : Int) * 1000) content = content.drop j ∧
      rotateDeno ((now2 : Int) - (ttl : Int) * 1000) content = content.drop j ∧
      (i - j, now1, L) ∈ markers (rotateNode ((now2 : Int) - (ttl : Int) * 1000) content) := by
  have hfr : freshAt ((now2 : Int) - (ttl : Int) * 1000) (i, now1, L) = true := by
    rw [freshAt, decide_eq_true_eq]
    show (now2 : Int) - (ttl : Int) * 1000 < ((now1 : Nat) : Int)
    omega
  cases hfd : (markers content).find? (freshAt ((now2 : Int) - (ttl : Int) * 1000)) with
  | none =>
    have hnone := List.find?_eq_none.mp hfd _ hmem
    exact absurd hfr hnone
  | some m0 =>
    obtain ⟨L1, L2, hsplit, hL1, hfm0, hrotN, hrotD, hmk⟩ :=
      fresh_split ((now2 : Int) - (ttl : Int) * 1000) hfd
    have hidx : ∀ x ∈ L2, m0.1 < x.1 := split_le_indices hsplit
    rw [hsplit] at hmem
    rcases List.mem_append.mp hmem with hm | hm
    · have hfalse := hL1 _ hm
      rw [hfr] at hfalse
      exact absurd hfalse (by simp)
    · rcases List.mem_cons.mp hm with hm | hm
      · subst hm
        refine ⟨i, le_refl i, hrotN, hrotD, ?_⟩
        rw [hrotN, hmk]
        exact List.mem_map_of_mem _ (List.mem_cons_self _ _)
      · refine ⟨m0.1, le_of_lt (hidx _ hm), hrotN, hrotD, ?_⟩
        rw [hrotN, hmk]
        exact List.mem_map_of_mem _ (List.mem_cons_of_mem _ hm)

/-- Witness for the amended C3 at a concrete input. -/
theorem C3_own_marker_witness :
    ((0 : Nat) < 1 ∧ (100000 : Nat) < 100000 + 1 * 1000 ∧
      (7, 100000, 39) ∈ markers ("hello\n".data ++ markerLine 100000 ++ "\n".data)) ∧
    (∃ j ≤ 7, rotateNode (((100000 : Nat) : Int) - ((1 : Nat) : Int) * 1000)
          ("hello\n".data ++ markerLine 100000 ++ "\n".data)
          = ("hello\n".data ++ markerLine 100000 ++ "\n".data).drop j ∧
        rotateDeno (((100000 : Nat) : Int) - ((1 : Nat) : Int) * 1000)
          ("hello\n".data ++ markerLine 100000 ++ "\n".data)
          = ("hello\n".data ++ markerLine 100000 ++ "\n".data).drop j ∧
        (7 - j, 100000, 39) ∈ markers (rotateNode
          (((100000 : Nat) : Int) - ((1 : Nat) : Int) * 1000)
          ("hello\n".data ++ markerLine 100000 ++ "\n".data))) :=
  ⟨⟨by decide, by decide, by decide⟩,
    C3_own_marker_amended 1 100000 100000 ("hello\n".data ++ markerLine 100000 ++ "\n".data)
      7 39 (by decide) (by decide) (by decide)⟩

/-- Claim C4 counterexample: with `now = 2000`, `T = 1`, the cutoff is 1000.
The content holds markers with timestamps 1000 and 2000, in non-decreasing
order.  The marker with timestamp 1000 satisfies `1000 ≥ now - T*1000`, was
present before the cycle, yet no marker with that timestamp survives the
rewrite — the strictly-greater cut drops a marker that sits exactly on the
boundary, refuting the claim's `≥` retention conjunct. -/
theorem C4_retention_counterexample :
    nonDecreasing ((markers (markerCore 1000 ++ " x ".data ++ markerCore 2000)).map
        (fun m => m.2.1)) = true ∧
    (0, 1000, 37) ∈ markers (markerCore 1000 ++ " x ".data ++ markerCore 2000) ∧
    (((2000 : Nat) : Int) - ((1 : Nat) : Int) * 1000 ≤ ((1000 : Nat) : Int)) ∧
    (∀ m ∈ markers (rotateNode (((2000 : Nat) : Int) - ((1 : Nat) : Int) * 1000)
        (markerCore 1000 ++ " x ".data ++ markerCore 2000)), m.2.1 ≠ 1000) := by
  decide

/-- Claim C4 as amended: after a rewrite at time `now` with `ttl = T`, assuming
the scanned markers appear in non-decreasing timestamp order: every marker
remaining has timestamp `≥ now - T*1000`; the rewritten content either has no
marker or starts exactly at its first marker (everything preceding the oldest
retained marker is discarded); and no marker whose timestamp is **strictly
greater** than `now - T*1000` that was present before the cycle is missing
afterward (strictly greater, not greater-or-equal: a marker lying exactly on
the cutoff may be discarded). -/
theorem C4_retention_amended (now T : Nat) (content : List Char)
    (hs : nonDecreasing ((markers content).map (fun m => m.2.1)) = true) :
    (∀ m ∈ markers (rotateNode ((now : Int) - (T : Int) * 1000) content),
        ((now : Int) - (T : Int) * 1000) ≤ (m.2.1 : Int)) ∧
    (markers (rotateNode ((now : Int) - (T : Int) * 1000) content) = [] ∨
      ∃ ts L, (markers (rotateNode ((now : Int) - (T : Int) * 1000) content)).head?
        = some (0, ts, L)) ∧
    (∀ m ∈ markers content, ((now : Int) - (T : Int) * 1000) < (m.2.1 : Int) →
      ∃ m' ∈ markers (rotateNode ((now : Int) - (T : Int) * 1000) content), m'.2 = m.2) := by
  have hpw : ((markers content).map (fun m => m.2.1)).Pairwise (· ≤ ·) :=
    List.chain'_iff_pairwise.mp (nonDecreasing_chain' _ hs)
  cases hfd : (markers content).find? (freshAt ((now : Int) - (T : Int) * 1000)) with
  | none =>
    have hmk : markers (rotateNode ((now : Int) - (T : Int) * 1000) content) = [] := by
      rw [rotateNode_of_find?_none _ hfd]
      exact markers_drop_scanEnd content
    refine ⟨?_, Or.inl hmk, ?_⟩
    · intro m hm
      rw [hmk] at hm
      simp at hm
    · intro m hm hf
      have hnf := List.find?_eq_none.mp hfd m hm
      rw [freshAt, decide_eq_true_eq] at hnf
      exact absurd hf hnf
  | some m0 =>
    obtain ⟨L1, L2, hsplit, hL1, hfm0, hrotN, hrotD, hmk⟩ :=
      fresh_split ((now : Int) - (T : Int) * 1000) hfd
    have hfresh0 : ((now : Int) - (T : Int) * 1000) < (m0.2.1 : Int) := by
      rw [freshAt, decide_eq_true_eq] at hfm0
      exact hfm0
    have hmono : ∀ x ∈ L2, m0.2.1 ≤ x.2.1 := by
      rw [hsplit, List.map_append, List.map_cons] at hpw
      have h2 := (List.pairwise_append.mp hpw).2.1
      have h3 := (List.pairwise_cons.mp h2).1
      intro x hx
      exact h3 x.2.1 (List.mem_map_of_mem _ hx)
    have hmks : markers (rotateNode ((now : Int) - (T : Int) * 1000) content)
        = (m0 :: L2).map (fun x => (x.1 - m0.1, x.2)) := by
      rw [hrotN]
      exact hmk
    refine ⟨?_, ?_, ?_⟩
    · intro m hm
      rw [hmks, List.mem_map] at hm
      obtain ⟨x, hx, rfl⟩ := hm
      rcases List.mem_cons.mp hx with hx | hx
      · subst hx
        dsimp only
        omega
      · have := hmono x hx
        dsimp only
        omega
    · right
      refine ⟨m0.2.1, m0.2.2, ?_⟩
      rw [hmks]
      simp
    · intro m hm hf
      rw [hsplit] at hm
      rcases List.mem_append.mp hm with hm | hm
      · have hfalse := hL1 m hm
        rw [freshAt, decide_eq_false_iff_not] at hfalse
        exact absurd hf hfalse
      · refine ⟨(m.1 - m0.1, m.2), ?_, rfl⟩
        rw [hmks]
        exact List.mem_map_of_mem _ hm

/-- Witness for the amended C4 at a concrete input. -/
theorem C4_retention_witness :
    nonDecreasing ((markers ("x ".data ++ markerCore 5000 ++ " y".data)).map
        (fun m => m.2.1)) = true ∧
    ((∀ m ∈ markers (rotateNode (((5000 : Nat) : Int) - ((1 : Nat) : Int) * 1000)
          ("x ".data ++ markerCore 5000 ++ " y".data)),
        (((5000 : Nat) : Int) - ((1 : Nat) : Int) * 1000) ≤ (m.2.1 : Int)) ∧
      (markers (rotateNode (((5000 : Nat) : Int) - ((1 : Nat) : Int) * 1000)
          ("x ".data ++ markerCore 5000 ++ " y".data)) = [] ∨
        ∃ ts L, (markers (rotateNode (((5000 : Nat) : Int) - ((1 : Nat) : Int) * 1000)
          ("x ".data ++ markerCore 5000 ++ " y".data))).head? = some (0, ts, L)) ∧
      (∀ m ∈ markers ("x ".data ++ markerCore 5000 ++ " y".data),
        (((5000 : Nat) : Int) - ((1 : Nat) : Int) * 1000) < (m.2.1 : Int) →
        ∃ m' ∈ markers (rotateNode (((5000 : Nat) : Int) - ((1 : Nat) : Int) * 1000)
          ("x ".data ++ markerCore 5000 ++ " y".data)), m'.2 = m.2)) :=
  ⟨by decide, C4_retention_amended 5000 1 ("x ".data ++ markerCore 5000 ++ " y".data) (by decide)⟩

/-- Claim C5 counterexample: two maintenance cycles run back to back at the
same clock reading on prior content ending in a marker fragment.  After the
second run the file is not the first run's content plus the freshly appended
marker line: the second scan also cuts away the first run's residue. -/
theorem C5_idempotence_counterexample :
    cycleNode 1 100000 100000 ("\n".data)
        (cycleNode 1 100000 100000 ("\n".data) ("---------- TIMESTAMP: 99".data))
      ≠ cycleNode 1 100000 100000 ("\n".data) ("---------- TIMESTAMP: 99".data)
          ++ markerLine 100000 ++ "\n".data := by
  decide

/-- Claim C5 as amended: when the first cycle's scan finds a marker strictly
newer than the cutoff (as always happens when the appended marker is scanned
intact), running the cycle again at the same clock reading with no intervening
appends leaves the content unchanged except for the freshly appended marker
line — for both variants. -/
theorem C5_idempotence_amended (ttl now : Nat) (sep prior : List Char) (m : Nat × Nat × Nat)
    (h : (markers (prior ++ markerLine now ++ sep)).find?
        (freshAt ((now : Int) - (ttl : Int) * 1000)) = some m) :
    cycleNode ttl now now sep (cycleNode ttl now now sep prior)
        = cycleNode ttl now now sep prior ++ markerLine now ++ sep ∧
    cycleDeno ttl now now sep (cycleDeno ttl now now sep prior)
        = cycleDeno ttl now now sep prior ++ markerLine now ++ sep := by
  have hN := rotate_stable_of_head_fresh ((now : Int) - (ttl : Int) * 1000)
    (prior ++ markerLine now ++ sep)
    (rotateNode ((now : Int) - (ttl : Int) * 1000) (prior ++ markerLine now ++ sep))
    (markerLine now ++ sep) m h (rotateNode_of_find?_some _ h)
  have hD := rotate_stable_of_head_fresh ((now : Int) - (ttl : Int) * 1000)
    (prior ++ markerLine now ++ sep)
    (rotateDeno ((now : Int) - (ttl : Int) * 1000) (prior ++ markerLine now ++ sep))
    (markerLine now ++ sep) m h (rotateDeno_of_find?_some _ h)
  constructor
  · show rotateNode ((now : Int) - (ttl : Int) * 1000)
        (rotateNode ((now : Int) - (ttl : Int) * 1000) (prior ++ markerLine now ++ sep)
          ++ markerLine now ++ sep)
      = rotateNode ((now : Int) - (ttl : Int) * 1000) (prior ++ markerLine now ++ sep)
          ++ markerLine now ++ sep
    rw [List.append_assoc
      (rotateNode ((now : Int) - (ttl : Int) * 1000) (prior ++ markerLine now ++ sep))
      (markerLine now) sep]
    exact hN.1
  · show rotateDeno ((now : Int) - (ttl : Int) * 1000)
        (rotateDeno ((now : Int) - (ttl : Int) * 1000) (prior ++ markerLine now ++ sep)
          ++ markerLine now ++ sep)
      = rotateDeno ((now : Int) - (ttl : Int) * 1000) (prior ++ markerLine now ++ sep)
          ++ markerLine now ++ sep
    rw [List.append_assoc
      (rotateDeno ((now : Int) - (ttl : Int) * 1000) (prior ++ markerLine now ++ sep))
      (markerLine now) sep]
    exact hD.2

/-- Witness for the amended C5 at a concrete input (empty prior content). -/
theorem C5_idempotence_witness :
    ((markers (("".data) ++ markerLine 100000 ++ "\n".data)).find?
        (freshAt (((100000 : Nat) : Int) - ((1 : Nat) : Int) * 1000)) = some (1, 100000, 39)) ∧
    (cycleNode 1 100000 100000 ("\n".data) (cycleNode 1 100000 100000 ("\n".data) ("".data))
        = cycleNode 1 100000 100000 ("\n".data) ("".data) ++ markerLine 100000 ++ "\n".data ∧
      cycleDeno 1 100000 100000 ("\n".data) (cycleDeno 1 100000 100000 ("\n".data) ("".data))
        = cycleDeno 1 100000 100000 ("\n".data) ("".data) ++ markerLine 100000 ++ "\n".data) :=
  ⟨by decide,
    C5_idempotence_amended 1 100000 ("\n".data) ("".data) (1, 100000, 39) (by decide)⟩

/-- Claim C6 (confirmed): for every millisecond timestamp `n`, the appended
Age Marker line ` ---------- TIMESTAMP: n ---------- ` parses back through the
fixed textual pattern followed by base-10 integer parsing to exactly one
marker whose timestamp is exactly `n`: the wire format round-trips. -/
theorem C6_marker_roundtrip (n : Nat) :
    markers (markerLine n) = [(1, n, (natDigits n).length + 33)] := by
  have hcore : tryMatch (markerCore n ++ [' ']) =
      some (digitsVal (natDigits n), patHead.length + (natDigits n).length + patTail.length) :=
    tryMatch_of_decomp (natDigits n) [' '] (natDigits_ne_nil n) (natDigits_all_digit n)
  have hval : digitsVal (natDigits n) = n := digitsVal_natDigits n
  have h22 : patHead.length = 22 := by decide
  have h11 : patTail.length = 11 := by decide
  have hlen : patHead.length + (natDigits n).length + patTail.length
      = (natDigits n).length + 33 := by omega
  rw [hval, hlen] at hcore
  have hfm1 : findMatch (markerCore n ++ [' ']) = some (0, n, (natDigits n).length + 33) :=
    findMatch_zero hcore
  have hshape : markerLine n = ' ' :: (markerCore n ++ [' ']) := rfl
  have hfm : findMatch (markerLine n) = some (1, n, (natDigits n).length + 33) := by
    rw [hshape, findMatch_cons_none (tryMatch_space _), hfm1]
    rfl
  rw [markers_cons hfm]
  have hclen : (markerCore n).length = (natDigits n).length + 33 := by
    rw [markerCore, List.length_append, List.length_append]
    omega
  have hdrop : (markerLine n).drop (1 + ((natDigits n).length + 33)) = [' '] := by
    rw [hshape]
    rw [show (1 : Nat) + ((natDigits n).length + 33) = ((natDigits n).length + 33) + 1 by omega]
    rw [List.drop_succ_cons]
    rw [← hclen]
    exact List.drop_left _ _
  rw [hdrop]
  rw [show markers [' '] = [] from by decide]
  rfl

/-- Claim C7: the claim says `dispose` cancels the periodic timer (if one was
scheduled) and closes the write handle.  Evaluating both sink models at the
failing input — a sink constructed with `ttl` set, then disposed — shows the
Node variant's `dispose` leaves the interval timer scheduled (it only closes
the stream; no `clearInterval` is ever issued), while the Deno variant's
`dispose` does cancel the timer and release both handles.  The Deno variant in
the same file shows cancellation is the intent, so the Node behaviour is a
code bug against the claim. -/
theorem C7_dispose_timer :
    (disposeNodeSink (createNodeSink (some 3600))).timerScheduled = true ∧
    (disposeNodeSink (createNodeSink (some 3600))).streamOpen = false ∧
    (disposeDenoSink (createDenoSink (some 3600))).timerScheduled = false ∧
    (disposeDenoSink (createDenoSink (some 3600))).writerOpen = false ∧
    (disposeDenoSink (createDenoSink (some 3600))).fileOpen = false := by
  decide

/-- Claim C8 counterexample: the claim's "the max-age option is set" does not
match the code's truthiness test.  With `expireDuration = 0` (set, but falsy
in JS), a pre-existing file two hours old exceeds the configured maximum of
0 seconds, so the claim's condition holds, yet neither variant deletes. -/
theorem C8_max_age_counterexample :
    claimMaxAgeDeletes (some 0) true (some 0) none 7200000 ∧
    nodeMaxAgeDeletes (some 0) true ⟨0⟩ 7200000 = false ∧
    denoMaxAgeDeletes (some 0) true ⟨some 0, none⟩ 7200000 = false := by
  refine ⟨⟨rfl, rfl, ?_⟩, rfl, rfl⟩
  norm_num

/-- Claim C8 as amended: the max-age check deletes iff the max-age option is
set **to a nonzero value**, the file existed before construction, and the age
from the creation timestamp (falling back to the modification time, Node
always having a creation time) exceeds the maximum; and in both construction
bodies the check occurs exactly once, before any maintenance activity. -/
theorem C8_max_age_amended (expireDur ttl : Option Nat) (eb : Bool) (stn : NodeStats)
    (std : DenoStats) (now : Int) :
    (nodeMaxAgeDeletes expireDur eb stn now = true ↔
      (jsNumTruthy expireDur = true ∧ eb = true ∧
        (((now - stn.birthtimeMs : Int) : ℚ) / 1000) > ((expireDur.getD 0 : Nat) : ℚ))) ∧
    (denoMaxAgeDeletes expireDur eb std now = true ↔
      (jsNumTruthy expireDur = true ∧ eb = true ∧
        (((now - (std.birthtimeMs.getD (std.mtimeMs.getD now)) : Int) : ℚ) / 1000)
          > ((expireDur.getD 0 : Nat) : ℚ))) ∧
    ((nodeConstructTrace expireDur ttl eb stn now).count SinkEv.ageCheck = 1 ∧
      (nodeConstructTrace expireDur ttl eb stn now).indexOf SinkEv.ageCheck
        < (nodeConstructTrace expireDur ttl eb stn now).indexOf SinkEv.maintenanceRun) ∧
    ((denoConstructTrace expireDur ttl eb std now).count SinkEv.ageCheck = 1 ∧
      (denoConstructTrace expireDur ttl eb std now).indexOf SinkEv.ageCheck
        < (denoConstructTrace expireDur ttl eb std now).indexOf SinkEv.maintenanceRun) := by
  have htrace : ∀ b1 b2 : Bool,
      (([SinkEv.openHandle, SinkEv.ageCheck]
          ++ (if b1 then [SinkEv.deleteFile] else [])
          ++ (if b2 then [SinkEv.timerSchedule, SinkEv.maintenanceRun] else [])).count
            SinkEv.ageCheck = 1 ∧
        ([SinkEv.openHandle, SinkEv.ageCheck]
          ++ (if b1 then [SinkEv.deleteFile] else [])
          ++ (if b2 then [SinkEv.timerSchedule, SinkEv.maintenanceRun] else [])).indexOf
            SinkEv.ageCheck
          < ([SinkEv.openHandle, SinkEv.ageCheck]
          ++ (if b1 then [SinkEv.deleteFile] else [])
          ++ (if b2 then [SinkEv.timerSchedule, SinkEv.maintenanceRun] else [])).indexOf
            SinkEv.maintenanceRun) := by
    intro b1 b2
    cases b1 <;> cases b2 <;> exact ⟨by decide, by decide⟩
  refine ⟨?_, ?_, htrace _ _, htrace _ _⟩
  · simp only [nodeMaxAgeDeletes, Bool.and_eq_true, decide_eq_true_eq, and_assoc]
  · by_cases heb : eb = true
    · subst heb
      simp only [denoMaxAgeDeletes, if_true, Bool.and_eq_true, decide_eq_true_eq]
      constructor
      · rintro ⟨h1, h2⟩
        exact ⟨h1, trivial, h2⟩
      · rintro ⟨h1, -, h2⟩
        exact ⟨h1, h2⟩
    · have heb' : eb = false := by
        revert heb
        cases eb <;> simp
      subst heb'
      simp only [denoMaxAgeDeletes, Bool.false_eq_true, if_false, Bool.and_eq_true,
        decide_eq_true_eq]
      constructor
      · rintro ⟨h1, h2⟩
        exfalso
        rw [sub_self] at h2
        norm_num at h2
        have hd : (0 : ℚ) ≤ ((expireDur.getD 0 : Nat) : ℚ) := Nat.cast_nonneg _
        linarith
      · rintro ⟨-, hfe, -⟩
        exact absurd hfe (by simp)

/-- Claim C9 (confirmed): the formatter applies the static prefix innermost,
then the call-time prefix, then the timestamp outermost, per line; the
timestamp (`epoch`: seconds since epoch as an integer; `iso`: the ISO string
of the clock) is computed once per call from the single clock reading and the
identical value is prepended to every line that `forEachLine` splits off. -/
theorem C9_stringify_order (fmt : String → String → String) (isoOf : Nat → String)
    (o : StringifyOpts) (now : Nat) (pfx : Option String) (base : String) :
    stringifyLog fmt isoOf o now pfx base =
      String.intercalate ("\n")
        ((if o.forEachLine then base.splitOn ("\n") else [base]).map (fun x =>
          let afterStatic := if jsStrTruthy o.addPfx then fmt (o.addPfx.getD ("")) x else x
          let afterCall := if jsStrTruthy pfx then fmt (pfx.getD ("")) afterStatic
            else afterStatic
          match o.addTs with
          | some TsMode.epoch => fmt (toString (now / 1000)) afterCall
          | some TsMode.iso => fmt (isoOf now) afterCall
          | none => afterCall)) := by
  obtain ⟨fe, ap, ts⟩ := o
  rcases ts with - | tm
  · cases fe <;> cases hap : jsStrTruthy ap <;> cases hp : jsStrTruthy pfx <;>
      simp [stringifyLog, hap, hp, List.map_map, Function.comp_def]
  · cases tm <;> cases fe <;> cases hap : jsStrTruthy ap <;> cases hp : jsStrTruthy pfx <;>
      simp [stringifyLog, hap, hp, List.map_map, Function.comp_def]

/-- Claim C10 (confirmed): for every content a maintenance cycle reads, the
content written back is a contiguous suffix of the content read, for both
variants: the rewrite only ever discards a prefix and never reorders,
duplicates or alters a retained byte. -/
theorem C10_suffix_invariant (now ttl : Nat) (content : List Char) :
    rotateNode ((now : Int) - (ttl : Int) * 1000) content <:+ content ∧
    rotateDeno ((now : Int) - (ttl : Int) * 1000) content <:+ content := by
  constructor
  · rw [rotateNode_spec ((now : Int) - (ttl : Int) * 1000) content]
    cases hfd : (markers content).find? (freshAt ((now : Int) - (ttl : Int) * 1000)) with
    | some m => exact List.drop_suffix m.1 content
    | none => exact List.drop_suffix _ content
  · simp only [rotateDeno]
    cases hfd : (markers content).find? (freshAt ((now : Int) - (ttl : Int) * 1000)) with
    | some m => exact List.drop_suffix m.1 content
    | none => exact List.suffix_refl content

end Logs
